import Mathlib

/-!
Verification of the Pricebook smartphone scraper (`web_scrape.py`).

The Python source is shallowly embedded: strings are lists of characters,
Python `None` becomes `Option.none`, functions that may raise return `Except`,
and the stateful crawl loop becomes an explicit step function on a state
record.  Every definition is translated from the source; definitions whose
name ends in `_spec` or `_claim` instead follow the natural-language
specification, for comparison with the source translation.
-/

set_option maxRecDepth 4000

/-- Python strings are modelled as lists of characters. -/
abbrev PyStr := List Char

/-- `leadsWith pat s` holds when `pat` occurs at the very start of `s`. -/
def leadsWith : PyStr → PyStr → Bool
  | [], _ => true
  | _ :: _, [] => false
  | p :: ps, c :: cs => p == c && leadsWith ps cs

/-- `occursIn pat s` models Python's `pat in s` substring test. -/
def occursIn (pat : PyStr) : PyStr → Bool
  | [] => leadsWith pat []
  | c :: rest => leadsWith pat (c :: rest) || occursIn pat rest

/-- The whitespace characters removed by Python's `str.strip()`. -/
def pyIsSpace (c : Char) : Bool :=
  c == ' ' || c == '\t' || c == '\n' || c == '\r' || c == '\x0b' || c == '\x0c'

/-- Python's `str.strip()`: remove whitespace from both ends. -/
def pyStrip (s : PyStr) : PyStr :=
  ((s.dropWhile pyIsSpace).reverse.dropWhile pyIsSpace).reverse

/-- Fuel-indexed worker for `replaceAll`; the fuel is the length of the
string, which suffices because every step consumes at least one character. -/
def replaceAllAux (pat rep : PyStr) : Nat → PyStr → PyStr
  | _, [] => []
  | 0, s => s
  | fuel + 1, c :: rest =>
    if leadsWith pat (c :: rest) && !pat.isEmpty then
      rep ++ replaceAllAux pat rep fuel (List.drop (pat.length - 1) rest)
    else
      c :: replaceAllAux pat rep fuel rest

/-- Python's `str.replace(pat, rep)`: replace every non-overlapping
occurrence of `pat`, scanning left to right. -/
def replaceAll (pat rep s : PyStr) : PyStr :=
  replaceAllAux pat rep s.length s

/-- Digit-string accumulator for `pyInt`: Python `int()` accepts decimal
digits with single underscores strictly between digits. `prevDigit` records
whether the previous accepted character was a digit. -/
def pyDigits (prevDigit : Bool) (acc : Nat) : PyStr → Option Nat
  | [] => if prevDigit then some acc else none
  | c :: rest =>
    if c.isDigit then pyDigits true (10 * acc + (c.toNat - 48)) rest
    else if c == '_' then (if prevDigit then pyDigits false acc rest else none)
    else none

/-- Python's `int(s)` on a decimal string: optional surrounding whitespace,
optional sign, then digits (with underscores between digits); `none` models
the `ValueError` raised on anything else. -/
def pyInt (s : PyStr) : Option Int :=
  match pyStrip s with
  | '+' :: rest => (pyDigits false 0 rest).map (fun n => (n : Int))
  | '-' :: rest => (pyDigits false 0 rest).map (fun n => -(n : Int))
  | t => (pyDigits false 0 t).map (fun n => (n : Int))

/-- The currency marker `"Rp"` stripped by `clean_price`. -/
def rpChars : PyStr := 'R' :: 'p' :: []

/-- `clean_price` from `web_scrape.py`: drop the `Rp` marker and the `.`
thousand separators, strip, and parse as a Python `int`; `none` on empty
input or when `int()` raises. -/
def clean_price (price_text : PyStr) : Option Int :=
  if price_text.isEmpty then none
  else pyInt (pyStrip (replaceAll ('.' :: []) [] (replaceAll rpChars [] price_text)))

/-- `clean_price` as the specification words it: the currency marker is
stripped, every `.` thousand-separator character is filtered out, and the
remainder is parsed as an integer, absent on empty input or a non-numeric
remainder. -/
def clean_price_spec (s : PyStr) : Option Int :=
  if s = [] then none
  else pyInt (pyStrip ((replaceAll rpChars [] s).filter (fun c => !(c == '.'))))

/-- The character classes appearing inside the capture groups of the regex
patterns passed to `extract_spec_value` in `web_scrape.py`: `\d` and `[\d.]`. -/
inductive SpecClass where
  | digits
  | digitsDot
  deriving DecidableEq

/-- Interpretation of a `SpecClass` as a character predicate. -/
def classMatches : SpecClass → Char → Bool
  | .digits, c => c.isDigit
  | .digitsDot, c => c.isDigit || c == '.'

/-- The shape of every pattern `web_scrape.py` hands to `re.search` with a
capture group: `(C+)\s*lit` for a character class `C` and a literal tail
`lit` (for example `([\d.]+)\s*inch` and `(\d+)\s*GB`). -/
structure SpecPattern where
  cls : SpecClass
  tail : PyStr
  deriving DecidableEq

/-- `\s*lit` matcher: succeeds when the literal `lit` starts after some run
of whitespace characters (the amount consumed by `\s*` does not affect the
capture, so existence is all that matters). -/
def wsThenLit (lit : PyStr) : PyStr → Bool
  | [] => leadsWith lit []
  | c :: rest => leadsWith lit (c :: rest) || (pyIsSpace c && wsThenLit lit rest)

/-- Backtracking over the greedy `+`: try capture lengths from `k` down to 1
and return the longest capture whose remainder matches `\s*lit`, exactly as
Python's regex engine does at a fixed starting position. -/
def tryCapLen (lit s : PyStr) : Nat → Option PyStr
  | 0 => none
  | k + 1 =>
    if wsThenLit lit (List.drop (k + 1) s) then some (List.take (k + 1) s)
    else tryCapLen lit s k

/-- Match of `(C+)\s*lit` anchored at the start of `s`, returning the
captured group. -/
def matchAt (p : SpecPattern) (s : PyStr) : Option PyStr :=
  tryCapLen p.tail s (s.takeWhile (classMatches p.cls)).length

/-- `re.search` for a `SpecPattern`: leftmost starting position wins, and at
that position the greedy capture is taken. -/
def re_search (p : SpecPattern) : PyStr → Option PyStr
  | [] => matchAt p []
  | c :: rest =>
    match matchAt p (c :: rest) with
    | some g => some g
    | none => re_search p rest

/-- Numbers produced by `extract_spec_value`: Python `int` or Python
`float` (modelled as the exact rational value of the decimal literal). -/
inductive PyNum where
  | intVal (n : Int)
  | floatVal (q : ℚ)
  deriving DecidableEq

/-- The Python exceptions relevant to the embedded functions. -/
inductive PyExc where
  | valueError
  | typeError
  | indexError
  deriving DecidableEq

instance {α β : Type} [DecidableEq α] [DecidableEq β] : DecidableEq (Except α β) := fun x y =>
  match x, y with
  | Except.ok a, Except.ok b =>
    if h : a = b then isTrue (by rw [h]) else isFalse (by simp [h])
  | Except.error a, Except.error b =>
    if h : a = b then isTrue (by rw [h]) else isFalse (by simp [h])
  | Except.ok _, Except.error _ => isFalse (by simp)
  | Except.error _, Except.ok _ => isFalse (by simp)

/-- Value of a digit string (empty string contributes 0). -/
def digitsToNat (s : PyStr) : Nat :=
  s.foldl (fun a c => 10 * a + (c.toNat - 48)) 0

/-- Python `float()` restricted to strings over digits and dots (the only
captures a `SpecPattern` can produce): valid when there is at least one
digit and at most one dot; the value is the exact decimal rational. -/
def parseFloatDigitsDot (s : PyStr) : Option ℚ :=
  if s.any Char.isDigit && (s.filter (fun c => c == '.')).length ≤ 1
      && s.all (fun c => c.isDigit || c == '.') then
    let ip := s.takeWhile (fun c => !(c == '.'))
    let fp := (s.dropWhile (fun c => !(c == '.'))).drop 1
    some ((digitsToNat ip : ℚ) + (digitsToNat fp : ℚ) / ((10 : ℚ) ^ fp.length))
  else none

/-- `float(s)` as an exception-raising conversion. -/
def float_conv (s : PyStr) : Except PyExc ℚ :=
  match parseFloatDigitsDot (pyStrip s) with
  | some q => Except.ok q
  | none => Except.error PyExc.valueError

/-- `int(s)` as an exception-raising conversion. -/
def int_conv (s : PyStr) : Except PyExc Int :=
  match pyInt s with
  | some n => Except.ok n
  | none => Except.error PyExc.valueError

/-- `extract_spec_value` from `web_scrape.py`: search the pattern, convert
the captured group with `float` when it contains a dot and `int` otherwise,
and catch `ValueError`/`TypeError` as `None`; any other exception would
propagate as `Except.error`. -/
def extract_spec_value (text : PyStr) (p : SpecPattern) : Except PyExc (Option PyNum) :=
  if text.isEmpty then Except.ok none
  else
    match re_search p text with
    | some g =>
      let conv : Except PyExc PyNum :=
        if g.any (fun c => c == '.') then (float_conv (pyStrip g)).map PyNum.floatVal
        else (int_conv (pyStrip g)).map PyNum.intVal
      match conv with
      | Except.ok v => Except.ok (some v)
      | Except.error PyExc.valueError => Except.ok none
      | Except.error PyExc.typeError => Except.ok none
      | Except.error e => Except.error e
    | none => Except.ok none

/-- One scraped smartphone record, as the dictionaries built by the three
extractors in `web_scrape.py`. -/
structure PhoneData where
  Name : PyStr
  Price : Option Int
  RAM : Option PyNum
  Storage : Option Int
  Camera : Option Int
  ScreenSize : Option ℚ
  Battery : Option Int
  ReleaseYear : Option Int
  deriving DecidableEq

/-- A product container element, abstracted to the DOM query results the
old/new layout price extraction performs on it: texts of anchors whose
`href` contains `track/seller`, all text nodes, texts of `td` cells, and
texts of elements whose class name contains `price`. -/
structure Product where
  sellerLinkTexts : List PyStr
  textNodes : List PyStr
  tdTexts : List PyStr
  priceClassTexts : List PyStr
  deriving DecidableEq

/-- Python truthiness of an optional int: `None` and `0` are falsy. -/
def truthy : Option Int → Bool
  | none => false
  | some n => !(n == 0)

/-- Old-layout price method 1: iterate the seller-tracking anchors and
break unconditionally at the first one whose stripped text contains `Rp`,
returning its cleaned price (which may be `none`). -/
def priceFromSellerLinks : List PyStr → Option Int
  | [] => none
  | a :: rest =>
    let price_text := pyStrip a
    if occursIn rpChars price_text then clean_price price_text
    else priceFromSellerLinks rest

/-- Old-layout method 2 / new-layout method 1: iterate the text nodes that
contain `Rp`, assign the cleaned stripped text to `price` each time, and
break as soon as `price` is truthy; `cur` is the running `price` variable. -/
def scanTextNodes (cur : Option Int) : List PyStr → Option Int
  | [] => cur
  | t :: rest =>
    if occursIn rpChars t then
      let p := clean_price (pyStrip t)
      if truthy p then p else scanTextNodes p rest
    else scanTextNodes cur rest

/-- Old-layout price method 3: break unconditionally at the first `td`
whose text contains `Rp`, returning its cleaned price. -/
def priceFromTds : List PyStr → Option Int
  | [] => none
  | t :: rest =>
    if occursIn rpChars t then clean_price t
    else priceFromTds rest

/-- Old-layout method 4 / new-layout method 2: iterate elements whose class
contains `price`, clean the (unstripped) text of each one containing `Rp`,
and break as soon as the cleaned value is truthy. -/
def scanPriceClass (cur : Option Int) : List PyStr → Option Int
  | [] => cur
  | t :: rest =>
    if occursIn rpChars t then
      let p := clean_price t
      if truthy p then p else scanPriceClass p rest
    else scanPriceClass cur rest

/-- The price-extraction portion of `extract_product_data_old_layout`:
methods 1-4 in order, each later method guarded by `price is None`. -/
def extract_price_old (prod : Product) : Option Int :=
  let price := priceFromSellerLinks prod.sellerLinkTexts
  let price := if price.isNone then scanTextNodes none prod.textNodes else price
  let price := if price.isNone then priceFromTds prod.tdTexts else price
  if price.isNone then scanPriceClass none prod.priceClassTexts else price

/-- The price-extraction portion of `extract_product_data_new_layout`:
text nodes first, then `price`-classed elements, the second guarded by
`price is None`. -/
def extract_price_new (prod : Product) : Option Int :=
  let price := scanTextNodes none prod.textNodes
  if price.isNone then scanPriceClass none prod.priceClassTexts else price

/-- Last element of a list with a default, used to describe what a
truthiness-scanning chain returns when no candidate is truthy. -/
def lastD (d : Option Int) : List (Option Int) → Option Int
  | [] => d
  | x :: rest => lastD x rest

/-- Result of one truthiness-scanning chain over the cleaned candidate
values: the first truthy value, else the last assigned value, else absent. -/
def chainResult (cleans : List (Option Int)) : Option Int :=
  match cleans.find? truthy with
  | some p => p
  | none => lastD none cleans

/-- The amended priority order for the old layout: the anchor chain and the
`td` chain commit to the first `Rp`-containing candidate; the text-node
chain and the `price`-class chain take the first truthy cleaned value, else
end with the last cleaned value; each later chain runs only when the
previous chains ended absent. -/
def price_priority_old (prod : Product) : Option Int :=
  let c1 := match (prod.sellerLinkTexts.map pyStrip).find? (occursIn rpChars) with
    | some t => clean_price t
    | none => none
  if c1.isNone then
    let c2 := chainResult ((prod.textNodes.filter (occursIn rpChars)).map
      (fun t => clean_price (pyStrip t)))
    if c2.isNone then
      let c3 := match prod.tdTexts.find? (occursIn rpChars) with
        | some t => clean_price t
        | none => none
      if c3.isNone then
        chainResult ((prod.priceClassTexts.filter (occursIn rpChars)).map clean_price)
      else c3
    else c2
  else c1

/-- The amended priority order for the new layout. -/
def price_priority_new (prod : Product) : Option Int :=
  let c1 := chainResult ((prod.textNodes.filter (occursIn rpChars)).map
    (fun t => clean_price (pyStrip t)))
  if c1.isNone then
    chainResult ((prod.priceClassTexts.filter (occursIn rpChars)).map clean_price)
  else c1

/-- The priority rule exactly as the claim words it: every candidate in the
four chains is passed through `clean_price` and the first non-absent
cleaned result becomes the price. -/
def price_claim_old (prod : Product) : Option Int :=
  let cleans :=
    ((prod.sellerLinkTexts.map pyStrip).filter (occursIn rpChars)).map clean_price
    ++ ((prod.textNodes.filter (occursIn rpChars)).map (fun t => clean_price (pyStrip t)))
    ++ ((prod.tdTexts.filter (occursIn rpChars)).map clean_price)
    ++ ((prod.priceClassTexts.filter (occursIn rpChars)).map clean_price)
  match cleans.find? (fun o => o.isSome) with
  | some p => p
  | none => none

/-- A parsed page, abstracted to the DOM query results `detect_layout`
performs: the texts of all `h2` elements and the number of hits of each of
the four container probes. -/
structure Soup where
  h2Texts : List PyStr
  productPanelSubstrCount : Nat
  stylesProductPanelCount : Nat
  productAndPanelCount : Nat
  rowCount : Nat
  deriving DecidableEq

/-- The three layout variants. -/
inductive Layout where
  | old
  | new
  | newest
  deriving DecidableEq

/-- The substring `"RAM"`. -/
def ramChars : PyStr := 'R' :: 'A' :: 'M' :: []

/-- The substring `"ROM"`. -/
def romChars : PyStr := 'R' :: 'O' :: 'M' :: []

/-- The `new_layout_indicators` list of `detect_layout` (hit counts of the
three product-panel probes). -/
def new_layout_indicators (soup : Soup) : List Nat :=
  soup.productPanelSubstrCount :: soup.stylesProductPanelCount
    :: soup.productAndPanelCount :: []

/-- The `old_layout_indicators` list of `detect_layout` (hit counts of the
exact product-panel class and of the generic `row` containers). -/
def old_layout_indicators (soup : Soup) : List Nat :=
  soup.stylesProductPanelCount :: soup.rowCount :: []

/-- `detect_layout` from `web_scrape.py`. -/
def detect_layout (soup : Soup) (page_number : Nat) : Layout :=
  let h2_headers := soup.h2Texts
  let newestHit :=
    if !h2_headers.isEmpty && h2_headers.length > 5 then
      h2_headers.find? (fun h => occursIn ramChars h && occursIn romChars h)
    else none
  match newestHit with
  | some _ => Layout.newest
  | none =>
    let default_layout := if page_number ≥ 202 then Layout.new else Layout.old
    if (new_layout_indicators soup).any (fun n => !(n == 0)) then Layout.new
    else if (old_layout_indicators soup).any (fun n => !(n == 0)) then Layout.old
    else default_layout

/-- `detect_layout` as the claim words it: first-match-wins order of
newest-heading test, new-layout probes, old-layout probes, then the
page-index default. -/
def detect_layout_spec (soup : Soup) (page_number : Nat) : Layout :=
  if 5 < soup.h2Texts.length
      ∧ ∃ h ∈ soup.h2Texts, (occursIn ramChars h && occursIn romChars h) = true then
    Layout.newest
  else if soup.productPanelSubstrCount ≠ 0 ∨ soup.stylesProductPanelCount ≠ 0
      ∨ soup.productAndPanelCount ≠ 0 then
    Layout.new
  else if soup.stylesProductPanelCount ≠ 0 ∨ soup.rowCount ≠ 0 then
    Layout.old
  else if 202 ≤ page_number then Layout.new
  else Layout.old

/-- The per-record acceptance loop of `scrape_pricebook` (lines 567-587 for
the newest layout, lines 631-654 for old/new); the two loops differ exactly
by the price-presence filter, selected by `requirePrice`.  Each extraction
result is checked: a `None` record or empty name is skipped, a name already
in `existing_phones` is skipped, and (when `requirePrice`) a record with
absent price is skipped without touching the ledger; an accepted record is
appended to `page_phones` and its name added to the ledger. -/
def acceptRecords (requirePrice : Bool) (existing_phones : List PyStr) :
    List (Option PhoneData) → List PhoneData × List PyStr
  | [] => ([], existing_phones)
  | none :: rest => acceptRecords requirePrice existing_phones rest
  | some pd :: rest =>
    if pd.Name = [] then acceptRecords requirePrice existing_phones rest
    else if pd.Name ∈ existing_phones then acceptRecords requirePrice existing_phones rest
    else if requirePrice && pd.Price.isNone then acceptRecords requirePrice existing_phones rest
    else
      let r := acceptRecords requirePrice (pd.Name :: existing_phones) rest
      (pd :: r.1, r.2)

/-- One page of the crawl, as seen after fetching and classification:
either the fetch exhausted its retries, or a `newest` page with the
extraction result of each RAM/ROM heading, or an `old`/`new` page with the
extraction result of each product container (an empty container list models
a page on which no products were found). -/
inductive PageInput where
  | fetchFailed
  | newestPage (extracted : List (Option PhoneData))
  | containerPage (isNewLayout : Bool) (products : List (Option PhoneData))
  deriving DecidableEq

/-- The mutable state of `scrape_pricebook`'s crawl loop; `savedBatches`
records each `save_data_to_csv(page_phones, ...)` call. -/
structure CrawlState where
  page : Nat
  total_phones : Nat
  empty_pages_count : Nat
  existing_phones : List PyStr
  savedBatches : List (List PhoneData)
  deriving DecidableEq

/-- `max_empty_pages` from `scrape_pricebook`. -/
def max_empty_pages : Nat := 3

/-- One iteration of `scrape_pricebook`'s `while` loop, from a fetched and
classified page to the next state; the returned `Bool` is true when the
loop `break`s (so the crawl stops).  A failed fetch just advances the page.
For `old`/`new` pages: no containers increments `empty_pages_count` and
stops at `max_empty_pages`; otherwise the counter is reset to zero before
extraction, and a page whose `page_phones` ends up empty increments it
again (from zero).  For `newest` pages there is no container check and no
reset on success. -/
def crawlStep (inp : PageInput) (st : CrawlState) : CrawlState × Bool :=
  match inp with
  | PageInput.fetchFailed => ({ st with page := st.page + 1 }, false)
  | PageInput.newestPage extracted =>
    let r := acceptRecords false st.existing_phones extracted
    if !r.1.isEmpty then
      ({ st with existing_phones := r.2,
                 savedBatches := st.savedBatches ++ [r.1],
                 total_phones := st.total_phones + r.1.length,
                 page := st.page + 1 }, false)
    else
      let e := st.empty_pages_count + 1
      if max_empty_pages ≤ e then
        ({ st with existing_phones := r.2, empty_pages_count := e }, true)
      else
        ({ st with existing_phones := r.2, empty_pages_count := e, page := st.page + 1 }, false)
  | PageInput.containerPage _ products =>
    if products.isEmpty then
      let e := st.empty_pages_count + 1
      if max_empty_pages ≤ e then ({ st with empty_pages_count := e }, true)
      else ({ st with empty_pages_count := e, page := st.page + 1 }, false)
    else
      let st0 := { st with empty_pages_count := 0 }
      let r := acceptRecords true st0.existing_phones products
      if !r.1.isEmpty then
        ({ st0 with existing_phones := r.2,
                    savedBatches := st0.savedBatches ++ [r.1],
                    total_phones := st0.total_phones + r.1.length,
                    page := st0.page + 1 }, false)
      else
        let e := st0.empty_pages_count + 1
        if max_empty_pages ≤ e then
          ({ st0 with existing_phones := r.2, empty_pages_count := e }, true)
        else
          ({ st0 with existing_phones := r.2, empty_pages_count := e, page := st0.page + 1 }, false)

/-- The records a page contributes to the store (the `page_phones` list the
loop passes to `save_data_to_csv` when non-empty). -/
def pageBatch (inp : PageInput) (st : CrawlState) : List PhoneData :=
  match inp with
  | PageInput.fetchFailed => []
  | PageInput.newestPage extracted => (acceptRecords false st.existing_phones extracted).1
  | PageInput.containerPage _ products =>
    if products.isEmpty then [] else (acceptRecords true st.existing_phones products).1

/-- The empty-page-streak update exactly as the claim words it: zero
accepted records increments the streak by one, at least one accepted record
resets it to zero, and the crawl terminates as soon as it reaches 3. -/
def claimStreakStep (acceptedCount streak : Nat) : Nat × Bool :=
  if acceptedCount = 0 then (streak + 1, decide (3 ≤ streak + 1)) else (0, false)

/-- The fetch-retry `while` loop of `scrape_pricebook` (lines 528-550).
`ok k` is the outcome of the attempt made with `retry_count = k`; the fuel
equals `max_retries - retry_count`.  Returns `(success, waits, retry_count)`
where `waits` lists the `retry_delay * retry_count` sleeps performed. -/
def fetch_retry_go (max_retries retry_delay : Nat) (ok : Nat → Bool) :
    Nat → Nat → List Nat → Bool × List Nat × Nat
  | 0, rc, ws => (false, ws, rc)
  | fuel + 1, rc, ws =>
    if ok rc then (true, ws, rc)
    else if rc + 1 < max_retries then
      fetch_retry_go max_retries retry_delay ok fuel (rc + 1) (ws ++ [retry_delay * (rc + 1)])
    else (false, ws, rc + 1)

/-- The fetch-retry loop started with `retry_count = 0`. -/
def fetch_retry (max_retries retry_delay : Nat) (ok : Nat → Bool) : Bool × List Nat × Nat :=
  fetch_retry_go max_retries retry_delay ok max_retries 0 []

/-- `[d * start, d * (start + 1), ..., d * (start + count - 1)]`: the
expected sleep sequence of the fetch-retry loop. -/
def waitsFrom (d start : Nat) : Nat → List Nat
  | 0 => []
  | count + 1 => d * start :: waitsFrom d (start + 1) count

/-- A line of the CSV store: the header row or one record row. -/
inductive CsvLine where
  | headerLine
  | row (r : PhoneData)
  deriving DecidableEq

/-- The file-system state touched by the persistence manager: the CSV store
(absent when the file does not exist), the backups taken so far (timestamp
paired with the copied content), and a clock supplying timestamps. -/
structure FileSys where
  csv : Option (List CsvLine)
  backups : List (Nat × List CsvLine)
  clock : Nat
  deriving DecidableEq

/-- `create_backup` from `web_scrape.py`: if the store exists, copy its
content into the backup directory under a timestamped name; no-op
otherwise. -/
def create_backup (fs : FileSys) : FileSys :=
  match fs.csv with
  | some content =>
    { fs with backups := fs.backups ++ [(fs.clock, content)], clock := fs.clock + 1 }
  | none => fs

/-- `save_data_to_csv` from `web_scrape.py`: backup before a destructive
rewrite, then write in mode `'a'` (no header) when appending to an existing
file and mode `'w'` (with header) otherwise. -/
def save_data_to_csv (data : List PhoneData) (fs : FileSys) (append : Bool) : FileSys :=
  let file_exists := fs.csv.isSome
  let fs1 := if file_exists && !append then create_backup fs else fs
  let writeHeader := !(append && file_exists)
  let base := if append && file_exists then fs1.csv.getD [] else []
  { fs1 with
      csv := some (base ++ (if writeHeader then [CsvLine.headerLine] else [])
        ++ data.map CsvLine.row) }

/-- `save_data_to_csv` as the claim words it, by cases on (append,
file-exists). -/
def save_spec (data : List PhoneData) (fs : FileSys) (append : Bool) : FileSys :=
  match fs.csv with
  | none => { fs with csv := some (CsvLine.headerLine :: data.map CsvLine.row) }
  | some c =>
    if append then { fs with csv := some (c ++ data.map CsvLine.row) }
    else
      { fs with backups := fs.backups ++ [(fs.clock, c)], clock := fs.clock + 1,
                csv := some (CsvLine.headerLine :: data.map CsvLine.row) }

/-- The result of `pd.read_csv` on the persisted store: either an exception
or a data frame with a possibly missing `Name` column. -/
structure DataFrameModel where
  hasNameColumn : Bool
  names : List PyStr
  deriving DecidableEq

/-- `get_existing_phones` from `web_scrape.py`: a missing file, a read
exception (caught and logged), or a frame without a `Name` column all yield
the empty ledger; otherwise the `Name` column is returned. -/
def get_existing_phones (file : Option (Except PyExc DataFrameModel)) : List PyStr :=
  match file with
  | none => []
  | some (Except.error _) => []
  | some (Except.ok df) => if df.hasNameColumn then df.names else []

/-- A product whose text nodes are `["Rp 0", "Rp 5"]`: the claimed
first-non-absent rule yields price 0, but the code's truthiness test skips
the cleaned 0 and returns 5. -/
def prodCex : Product :=
  ⟨[], "Rp 0".toList :: "Rp 5".toList :: [], [], []⟩

/-- The record, page input and state used to witness claim C1. -/
def pdW : PhoneData := ⟨'W' :: [], none, none, none, none, none, none, none⟩

/-- A one-heading `newest` page input for the C1 witness. -/
def inpW : PageInput := PageInput.newestPage (some pdW :: [])

/-- The crawl state for the C1 witness. -/
def stW : CrawlState := ⟨1, 0, 0, [], []⟩

/-- The extraction result used in the C2 counterexample: a record with a
name but no price, so the container page accepts nothing. -/
def pdNoPrice : PhoneData := ⟨'A' :: [], none, none, none, none, none, none, none⟩

/-- An `old`-layout page with one container whose record has no price. -/
def inpC2 : PageInput := PageInput.containerPage false (some pdNoPrice :: [])

/-- A crawl state with an empty-page streak of 2. -/
def stC2 : CrawlState := ⟨7, 0, 2, [], []⟩

/-- The accepted record used to witness claim C3. -/
def pdAW : PhoneData := ⟨'A' :: [], some 5, none, none, none, none, none, none⟩

/-- The pre-seeded ledger used to witness claim C3. -/
def ledgerW : List PyStr := ('Z' :: []) :: []

/-- The extraction results used to witness claim C3. -/
def prodsW : List (Option PhoneData) := some pdAW :: []

theorem replaceAllAux_dot_eq_filter (fuel : Nat) :
    ∀ s : PyStr, s.length ≤ fuel →
      replaceAllAux ('.' :: []) [] fuel s = s.filter (fun c => !(c == '.')) := by
  induction fuel with
  | zero =>
    intro s hs
    have : s = [] := List.eq_nil_of_length_eq_zero (Nat.le_zero.mp hs)
    subst this
    rfl
  | succ f ih =>
    intro s hs
    match s with
    | [] => rfl
    | c :: rest =>
      simp only [List.length_cons] at hs
      have ht := ih rest (Nat.le_of_succ_le_succ hs)
      by_cases hc : c = '.'
      · subst hc
        simp [replaceAllAux, leadsWith, List.filter_cons, ht]
      · have hcb : (c == '.') = false := by simp [hc]
        have hdb : ('.' == c) = false := by simp [Ne.symm hc]
        simp [replaceAllAux, leadsWith, List.filter_cons, hcb, hdb, ht]

theorem replaceAll_dot_eq_filter (s : PyStr) :
    replaceAll ('.' :: []) [] s = s.filter (fun c => !(c == '.')) :=
  replaceAllAux_dot_eq_filter s.length s (Nat.le_refl _)

/-- Claim C5: `clean_price` strips the currency marker and the `.`
thousand-separator characters and parses the remainder as an integer,
returning absent on empty input or a non-numeric remainder; in particular
`clean_price "Rp 1.250.000" = 1250000`, `clean_price "" = absent` and
`clean_price "N/A" = absent`. -/
theorem clean_price_c5 :
    (∀ s : PyStr, clean_price s = clean_price_spec s)
    ∧ clean_price "Rp 1.250.000".toList = some 1250000
    ∧ clean_price "".toList = none
    ∧ clean_price "N/A".toList = none := by
  refine ⟨?_, by decide, by decide, by decide⟩
  intro s
  unfold clean_price clean_price_spec
  rw [replaceAll_dot_eq_filter]
  rcases s with _ | ⟨c, rest⟩ <;> simp [List.isEmpty]

/-- Claim C9: `save_data_to_csv` behaves by cases on (append, file-exists):
a destructive rewrite of an existing file takes a timestamped backup first
and writes a header; appending to an existing file writes no header; a
missing file is created with a header regardless of `append`. -/
theorem save_c9 :
    ∀ (data : List PhoneData) (fs : FileSys) (append : Bool),
      save_data_to_csv data fs append = save_spec data fs append := by
  intro data fs append
  rcases fs with ⟨csv, backups, clock⟩
  rcases csv with _ | ⟨c⟩ <;> cases append <;>
    simp [save_data_to_csv, save_spec, create_backup]

/-- Claim C10: a missing store, a store whose read raises (the exception is
caught, never propagated), or a frame without a `Name` column all give the
empty dedup ledger. -/
theorem get_existing_phones_c10 :
    ∀ (e : PyExc) (ns : List PyStr),
      get_existing_phones none = []
      ∧ get_existing_phones (some (Except.error e)) = []
      ∧ get_existing_phones (some (Except.ok ⟨false, ns⟩)) = []
      ∧ get_existing_phones (some (Except.ok ⟨true, ns⟩)) = ns := by
  intro e ns
  refine ⟨rfl, rfl, rfl, rfl⟩

theorem fetch_retry_go_allfail (max_retries retry_delay : Nat) :
    ∀ (fuel rc : Nat) (ws : List Nat), rc + fuel = max_retries →
      fetch_retry_go max_retries retry_delay (fun _ => false) fuel rc ws
        = (false, ws ++ waitsFrom retry_delay (rc + 1) (fuel - 1), max_retries) := by
  intro fuel
  induction fuel with
  | zero =>
    intro rc ws h
    simp [fetch_retry_go, waitsFrom]
    omega
  | succ f ih =>
    intro rc ws h
    rw [fetch_retry_go]
    simp only [Bool.false_eq_true, if_false]
    by_cases hlt : rc + 1 < max_retries
    · rw [if_pos hlt]
      cases f with
      | zero => omega
      | succ f' =>
        rw [ih (rc + 1) (ws ++ [retry_delay * (rc + 1)]) (by omega)]
        simp [waitsFrom]
    · rw [if_neg hlt]
      have hf : f = 0 := by omega
      subst hf
      simp [waitsFrom]
      omega

theorem fetch_retry_go_rc_le (max_retries retry_delay : Nat) (ok : Nat → Bool) :
    ∀ (fuel rc : Nat) (ws : List Nat),
      (fetch_retry_go max_retries retry_delay ok fuel rc ws).2.2 ≤ rc + fuel := by
  intro fuel
  induction fuel with
  | zero => intro rc ws; simp [fetch_retry_go]
  | succ f ih =>
    intro rc ws
    rw [fetch_retry_go]
    by_cases hok : ok rc
    · rw [if_pos hok]
      simp
    · rw [if_neg hok]
      by_cases hlt : rc + 1 < max_retries
      · rw [if_pos hlt]
        have := ih (rc + 1) (ws ++ [retry_delay * (rc + 1)])
        omega
      · rw [if_neg hlt]
        simp

/-- Claim C8: on a page whose fetch keeps raising, the crawl loop sleeps
`retry_delay * attemptNumber` seconds after each failed attempt (so the
sleeps are `retry_delay * 1, ..., retry_delay * (max_retries - 1)`), makes
at most `max_retries` attempts, and on exhaustion skips just that page —
`crawlStep` on a failed fetch advances the page index and never stops the
run. -/
theorem scrape_c8 :
    ∀ (max_retries retry_delay : Nat) (ok : Nat → Bool) (st : CrawlState),
      fetch_retry max_retries retry_delay (fun _ => false)
        = (false, waitsFrom retry_delay 1 (max_retries - 1), max_retries)
      ∧ (fetch_retry max_retries retry_delay ok).2.2 ≤ max_retries
      ∧ crawlStep PageInput.fetchFailed st = ({ st with page := st.page + 1 }, false) := by
  intro max_retries retry_delay ok st
  refine ⟨?_, ?_, rfl⟩
  · have := fetch_retry_go_allfail max_retries retry_delay max_retries 0 [] (by omega)
    simpa [fetch_retry] using this
  · have := fetch_retry_go_rc_le max_retries retry_delay ok max_retries 0 []
    simpa [fetch_retry] using this

/-- Claim C4: `detect_layout` follows the specified first-match-wins order:
newest when there are more than five `h2` headings and one contains both
`RAM` and `ROM`; else `new` when any new-layout probe matches; else `old`
when any old-layout probe matches; else the page-index default (`new` for
pages at index 202 and above, `old` below). -/
theorem detect_layout_c4 :
    ∀ (soup : Soup) (page_number : Nat),
      detect_layout soup page_number = detect_layout_spec soup page_number := by
  intro soup n
  by_cases h5 : 5 < soup.h2Texts.length
  · have hne : soup.h2Texts.isEmpty = false := by
      cases hl : soup.h2Texts with
      | nil => rw [hl] at h5; simp at h5
      | cons a l => simp
    cases hf : soup.h2Texts.find? (fun h => occursIn ramChars h && occursIn romChars h) with
    | some x =>
      have hx := List.find?_some hf
      simp only [Bool.and_eq_true] at hx
      have hP : ∃ h ∈ soup.h2Texts, occursIn ramChars h = true ∧ occursIn romChars h = true :=
        ⟨x, List.mem_of_find?_eq_some hf, hx⟩
      simp [detect_layout, detect_layout_spec, hne, h5, hf, hP]
    | none =>
      have hnone := List.find?_eq_none.mp hf
      have hnP : ¬ ∃ h ∈ soup.h2Texts, occursIn ramChars h = true ∧ occursIn romChars h = true := by
        rintro ⟨y, hy, hr, ho⟩
        have := hnone y hy
        simp [hr, ho] at this
      simp [detect_layout, detect_layout_spec, hne, h5, hf, hnP,
        new_layout_indicators, old_layout_indicators]
  · simp [detect_layout, detect_layout_spec, h5,
      new_layout_indicators, old_layout_indicators]

theorem re_search_nil (p : SpecPattern) : re_search p [] = none := by
  simp [re_search, matchAt, tryCapLen]

/-- Claim C6: `extract_spec_value` never raises — it always returns
`Except.ok` — and its value is the pattern's captured group parsed as a
float when the capture contains a decimal point and as an integer
otherwise, absent whenever the pattern does not match or parsing fails; in
particular it yields the float 6.5 on `"6.5 inch display"` with
`([\d.]+)\s*inch` and the integer 128 on `"128GB storage"` with
`(\d+)\s*GB`. -/
theorem extract_spec_value_c6 :
    (∀ (text : PyStr) (p : SpecPattern),
      extract_spec_value text p = Except.ok (
        match re_search p text with
        | none => none
        | some g =>
          if g.any (fun c => c == '.') then
            (parseFloatDigitsDot (pyStrip (pyStrip g))).map PyNum.floatVal
          else (pyInt (pyStrip g)).map PyNum.intVal))
    ∧ extract_spec_value "6.5 inch display".toList ⟨SpecClass.digitsDot, "inch".toList⟩
        = Except.ok (some (PyNum.floatVal (13 / 2)))
    ∧ extract_spec_value "128GB storage".toList ⟨SpecClass.digits, "GB".toList⟩
        = Except.ok (some (PyNum.intVal 128)) := by
  refine ⟨?_, ?_, by decide⟩
  · intro text p
    by_cases he : text.isEmpty
    · have ht : text = [] := by simpa using he
      subst ht
      simp [extract_spec_value, re_search_nil]
    · simp only [extract_spec_value, he, Bool.false_eq_true, if_false]
      cases hr : re_search p text with
      | none => rfl
      | some g =>
        by_cases hd : g.any (fun c => c == '.')
        · simp only [hd, if_true, float_conv]
          cases hp : parseFloatDigitsDot (pyStrip (pyStrip g)) with
          | none => simp only [hp]; rfl
          | some q => simp only [hp]; rfl
        · simp only [hd, Bool.false_eq_true, if_false, int_conv]
          cases hp : pyInt (pyStrip g) with
          | none => simp only [hp]; rfl
          | some q => simp only [hp]; rfl
  · have h : re_search ⟨SpecClass.digitsDot, "inch".toList⟩ "6.5 inch display".toList
        = some ('6' :: '.' :: '5' :: []) := by decide
    have hp : parseFloatDigitsDot ('6' :: '.' :: '5' :: []) = some ((13 : ℚ) / 2) := by
      simp only [parseFloatDigitsDot]
      rw [if_pos (by decide)]
      have t1 : List.takeWhile (fun c => !(c == '.')) ('6' :: '.' :: '5' :: [])
          = ('6' :: []) := by decide
      have t2 : (List.dropWhile (fun c => !(c == '.')) ('6' :: '.' :: '5' :: [])).drop 1
          = ('5' :: []) := by decide
      rw [t1, t2]
      have d1 : digitsToNat ('6' :: []) = 6 := by decide
      have d2 : digitsToNat ('5' :: []) = 5 := by decide
      rw [d1, d2]
      norm_num
    have hs : pyStrip ('6' :: '.' :: '5' :: []) = '6' :: '.' :: '5' :: [] := by decide
    simp only [extract_spec_value, h]
    rw [if_neg (by decide)]
    rw [if_pos (by decide)]
    simp only [float_conv, hs, hp]
    rfl

theorem lastD_cons (cur x : Option Int) (xs : List (Option Int)) :
    lastD cur (x :: xs) = lastD x xs := rfl

theorem scanTextNodes_eq (l : List PyStr) : ∀ cur : Option Int,
    scanTextNodes cur l =
      match ((l.filter (occursIn rpChars)).map (fun t => clean_price (pyStrip t))).find? truthy with
      | some p => p
      | none => lastD cur ((l.filter (occursIn rpChars)).map (fun t => clean_price (pyStrip t))) := by
  induction l with
  | nil => intro cur; simp [scanTextNodes, lastD]
  | cons t rest ih =>
    intro cur
    by_cases hR : occursIn rpChars t
    · by_cases ht : truthy (clean_price (pyStrip t))
      · simp [scanTextNodes, hR, ht, List.filter_cons, List.find?_cons]
      · simp only [scanTextNodes, hR, if_true, ht, Bool.false_eq_true, if_false,
          List.filter_cons, List.map_cons, List.find?_cons, lastD_cons]
        rw [ih (clean_price (pyStrip t))]
    · simp only [scanTextNodes, hR, Bool.false_eq_true, if_false, List.filter_cons]
      exact ih cur

theorem scanPriceClass_eq (l : List PyStr) : ∀ cur : Option Int,
    scanPriceClass cur l =
      match ((l.filter (occursIn rpChars)).map clean_price).find? truthy with
      | some p => p
      | none => lastD cur ((l.filter (occursIn rpChars)).map clean_price) := by
  induction l with
  | nil => intro cur; simp [scanPriceClass, lastD]
  | cons t rest ih =>
    intro cur
    by_cases hR : occursIn rpChars t
    · by_cases ht : truthy (clean_price t)
      · simp [scanPriceClass, hR, ht, List.filter_cons, List.find?_cons]
      · simp only [scanPriceClass, hR, if_true, ht, Bool.false_eq_true, if_false,
          List.filter_cons, List.map_cons, List.find?_cons, lastD_cons]
        rw [ih (clean_price t)]
    · simp only [scanPriceClass, hR, Bool.false_eq_true, if_false, List.filter_cons]
      exact ih cur

theorem priceFromSellerLinks_eq (l : List PyStr) :
    priceFromSellerLinks l =
      match (l.map pyStrip).find? (occursIn rpChars) with
      | some t => clean_price t
      | none => none := by
  induction l with
  | nil => simp [priceFromSellerLinks]
  | cons a rest ih =>
    by_cases hR : occursIn rpChars (pyStrip a)
    · simp [priceFromSellerLinks, hR, List.find?_cons]
    · simp only [priceFromSellerLinks, hR, Bool.false_eq_true, if_false,
        List.map_cons, List.find?_cons]
      rw [ih]

theorem priceFromTds_eq (l : List PyStr) :
    priceFromTds l =
      match l.find? (occursIn rpChars) with
      | some t => clean_price t
      | none => none := by
  induction l with
  | nil => simp [priceFromTds]
  | cons a rest ih =>
    by_cases hR : occursIn rpChars a
    · simp [priceFromTds, hR, List.find?_cons]
    · simp only [priceFromTds, hR, Bool.false_eq_true, if_false, List.find?_cons]
      rw [ih]

/-- Claim C7 (amended): price candidates are tried chain by chain in the
specified order, and a later chain runs only when the previous chains ended
absent; but the old layout's seller-anchor chain and table-cell chain
commit to the first candidate containing the currency marker (its cleaned
value, even absent, ends the chain), and the text-node and `price`-class
chains take the first cleaned value that is non-absent and nonzero, falling
back to the last cleaned candidate of the chain. -/
theorem price_c7_amended :
    ∀ prod : Product,
      extract_price_old prod = price_priority_old prod
      ∧ extract_price_new prod = price_priority_new prod := by
  intro prod
  constructor
  · unfold extract_price_old price_priority_old
    simp only [chainResult]
    rw [← priceFromSellerLinks_eq, ← scanTextNodes_eq, ← priceFromTds_eq, ← scanPriceClass_eq]
    cases priceFromSellerLinks prod.sellerLinkTexts <;>
      cases scanTextNodes none prod.textNodes <;>
      cases priceFromTds prod.tdTexts <;> simp
  · unfold extract_price_new price_priority_new
    simp only [chainResult]
    rw [← scanTextNodes_eq, ← scanPriceClass_eq]

/-- Claim C7 counterexample: on `prodCex` the old-layout extraction returns
5 while the claimed first-non-absent priority rule returns 0, so the claim
as stated is false. -/
theorem price_c7_cex :
    extract_price_old prodCex = some 5
    ∧ price_claim_old prodCex = some 0
    ∧ ¬ ((some 5 : Option Int) = some 0) := by decide

theorem acceptRecords_mem (rp : Bool) :
    ∀ (l : List (Option PhoneData)) (ledger : List PyStr) (pd : PhoneData),
      pd ∈ (acceptRecords rp ledger l).1 →
        pd.Name ≠ [] ∧ (rp = true → pd.Price ≠ none) ∧ pd.Name ∉ ledger := by
  intro l
  induction l with
  | nil => intro ledger pd h; simp [acceptRecords] at h
  | cons o rest ih =>
    intro ledger pd h
    cases o with
    | none =>
      simp only [acceptRecords] at h
      exact ih ledger pd h
    | some q =>
      by_cases h1 : q.Name = []
      · simp only [acceptRecords, if_pos h1] at h
        exact ih ledger pd h
      · by_cases h2 : q.Name ∈ ledger
        · simp only [acceptRecords, if_neg h1, if_pos h2] at h
          exact ih ledger pd h
        · by_cases h3 : (rp && q.Price.isNone) = true
          · simp only [acceptRecords, if_neg h1, if_neg h2, if_pos h3] at h
            exact ih ledger pd h
          · simp only [acceptRecords, if_neg h1, if_neg h2, if_neg h3] at h
            rcases List.mem_cons.mp h with rfl | htail
            · refine ⟨h1, ?_, h2⟩
              intro hrp hpn
              exact h3 (by simp [hrp, hpn])
            · have ht := ih (q.Name :: ledger) pd htail
              exact ⟨ht.1, ht.2.1, fun hm => ht.2.2 (List.mem_cons_of_mem _ hm)⟩

theorem acceptRecords_sub (rp : Bool) :
    ∀ (l : List (Option PhoneData)) (ledger : List PyStr) (x : PyStr),
      x ∈ ledger → x ∈ (acceptRecords rp ledger l).2 := by
  intro l
  induction l with
  | nil => intro ledger x hx; simpa [acceptRecords] using hx
  | cons o rest ih =>
    intro ledger x hx
    cases o with
    | none =>
      simp only [acceptRecords]
      exact ih ledger x hx
    | some q =>
      by_cases h1 : q.Name = []
      · simp only [acceptRecords, if_pos h1]
        exact ih ledger x hx
      · by_cases h2 : q.Name ∈ ledger
        · simp only [acceptRecords, if_neg h1, if_pos h2]
          exact ih ledger x hx
        · by_cases h3 : (rp && q.Price.isNone) = true
          · simp only [acceptRecords, if_neg h1, if_neg h2, if_pos h3]
            exact ih ledger x hx
          · simp only [acceptRecords, if_neg h1, if_neg h2, if_neg h3]
            exact ih (q.Name :: ledger) x (List.mem_cons_of_mem _ hx)

theorem acceptRecords_names (rp : Bool) :
    ∀ (l : List (Option PhoneData)) (ledger : List PyStr) (pd : PhoneData),
      pd ∈ (acceptRecords rp ledger l).1 → pd.Name ∈ (acceptRecords rp ledger l).2 := by
  intro l
  induction l with
  | nil => intro ledger pd h; simp [acceptRecords] at h
  | cons o rest ih =>
    intro ledger pd h
    cases o with
    | none =>
      simp only [acceptRecords] at h ⊢
      exact ih ledger pd h
    | some q =>
      by_cases h1 : q.Name = []
      · simp only [acceptRecords, if_pos h1] at h ⊢
        exact ih ledger pd h
      · by_cases h2 : q.Name ∈ ledger
        · simp only [acceptRecords, if_neg h1, if_pos h2] at h ⊢
          exact ih ledger pd h
        · by_cases h3 : (rp && q.Price.isNone) = true
          · simp only [acceptRecords, if_neg h1, if_neg h2, if_pos h3] at h ⊢
            exact ih ledger pd h
          · simp only [acceptRecords, if_neg h1, if_neg h2, if_neg h3] at h ⊢
            rcases List.mem_cons.mp h with rfl | htail
            · exact acceptRecords_sub rp rest (pd.Name :: ledger) pd.Name
                (List.mem_cons_self _ _)
            · exact ih (q.Name :: ledger) pd htail

theorem acceptRecords_idem (rp : Bool) :
    ∀ (l : List (Option PhoneData)) (led bigLed : List PyStr),
      (∀ x, x ∈ led → x ∈ bigLed) →
      (∀ pd, pd ∈ (acceptRecords rp led l).1 → pd.Name ∈ bigLed) →
      (acceptRecords rp bigLed l).1 = [] := by
  intro l
  induction l with
  | nil => intro led bigLed hsub hacc; simp [acceptRecords]
  | cons o rest ih =>
    intro led bigLed hsub hacc
    cases o with
    | none =>
      simp only [acceptRecords] at hacc ⊢
      exact ih led bigLed hsub hacc
    | some q =>
      by_cases h1 : q.Name = []
      · simp only [acceptRecords, if_pos h1] at hacc ⊢
        exact ih led bigLed hsub hacc
      · by_cases h2 : q.Name ∈ led
        · have h2' : q.Name ∈ bigLed := hsub _ h2
          simp only [acceptRecords, if_neg h1, if_pos h2] at hacc
          simp only [acceptRecords, if_neg h1, if_pos h2']
          exact ih led bigLed hsub hacc
        · by_cases h3 : (rp && q.Price.isNone) = true
          · simp only [acceptRecords, if_neg h1, if_neg h2, if_pos h3] at hacc
            by_cases h2' : q.Name ∈ bigLed
            · simp only [acceptRecords, if_neg h1, if_pos h2']
              exact ih led bigLed hsub hacc
            · simp only [acceptRecords, if_neg h1, if_neg h2', if_pos h3]
              exact ih led bigLed hsub hacc
          · simp only [acceptRecords, if_neg h1, if_neg h2, if_neg h3] at hacc
            have hqBig : q.Name ∈ bigLed := hacc q (List.mem_cons_self _ _)
            simp only [acceptRecords, if_neg h1, if_pos hqBig]
            refine ih (q.Name :: led) bigLed ?_ ?_
            · intro x hx
              rcases List.mem_cons.mp hx with rfl | hx'
              · exact hqBig
              · exact hsub x hx'
            · intro pd hpd
              exact hacc pd (List.mem_cons_of_mem _ hpd)

theorem crawlStep_batch (inp : PageInput) (st : CrawlState) :
    (crawlStep inp st).1.savedBatches
        = st.savedBatches ++ (if (pageBatch inp st).isEmpty then [] else [pageBatch inp st])
    ∧ (crawlStep inp st).1.total_phones = st.total_phones + (pageBatch inp st).length := by
  cases inp with
  | fetchFailed => simp [crawlStep, pageBatch]
  | newestPage extracted =>
    by_cases hb : (acceptRecords false st.existing_phones extracted).1.isEmpty
    · have hnil : (acceptRecords false st.existing_phones extracted).1 = [] := by
        simpa using hb
      simp only [crawlStep, pageBatch, hb, hnil]
      split_ifs <;> simp_all
    · simp [crawlStep, pageBatch, hb]
  | containerPage b products =>
    by_cases hp : products.isEmpty
    · simp only [crawlStep, pageBatch, hp, if_pos, if_true, List.isEmpty_nil]
      split_ifs <;> simp
    · by_cases hb : (acceptRecords true st.existing_phones products).1.isEmpty
      · have hnil : (acceptRecords true st.existing_phones products).1 = [] := by
          simpa using hb
        simp only [crawlStep, pageBatch, hp, hb, hnil, Bool.false_eq_true, if_false]
        split_ifs <;> simp_all
      · simp [crawlStep, pageBatch, hp, hb]

/-- Claim C1: every record a crawl iteration persists (the batch handed to
`save_data_to_csv`) has a non-empty `Name`; a record produced on an
`old`/`new` container page has a non-absent `Price`; a record with absent
`Price` can only come from a `newest`-layout page. -/
theorem scrape_c1 :
    (∀ (inp : PageInput) (st : CrawlState),
      (crawlStep inp st).1.savedBatches
        = st.savedBatches ++ (if (pageBatch inp st).isEmpty then [] else [pageBatch inp st]))
    ∧ (∀ (inp : PageInput) (st : CrawlState) (pd : PhoneData),
        pd ∈ pageBatch inp st →
          pd.Name ≠ []
          ∧ (∀ (b : Bool) (prods : List (Option PhoneData)),
              inp = PageInput.containerPage b prods → pd.Price ≠ none)
          ∧ (pd.Price = none → ∃ extracted, inp = PageInput.newestPage extracted)) := by
  constructor
  · intro inp st
    exact (crawlStep_batch inp st).1
  · intro inp st pd h
    cases inp with
    | fetchFailed => simp [pageBatch] at h
    | newestPage extracted =>
      have hm := acceptRecords_mem false extracted st.existing_phones pd
        (by simpa [pageBatch] using h)
      refine ⟨hm.1, ?_, ?_⟩
      · intro b prods heq
        simp at heq
      · intro _
        exact ⟨extracted, rfl⟩
    | containerPage b prods =>
      by_cases hp : prods.isEmpty
      · simp [pageBatch, hp] at h
      · have hm := acceptRecords_mem true prods st.existing_phones pd
          (by simpa [pageBatch, hp] using h)
        refine ⟨hm.1, ?_, ?_⟩
        · intro b' prods' _
          exact hm.2.1 rfl
        · intro hpn
          exact absurd hpn (hm.2.1 rfl)

theorem scrape_c1_witness :
    pdW.Name ≠ [] ∧ ∃ extracted, inpW = PageInput.newestPage extracted :=
  ⟨(scrape_c1.2 inpW stW pdW (by decide)).1,
   (scrape_c1.2 inpW stW pdW (by decide)).2.2 rfl⟩

/-- Claim C2 (amended): a page yielding zero containers increments the
empty-page streak by one and the crawl stops as soon as the streak reaches
3; an `old`/`new` page with at least one container first resets the streak
to zero, so it ends at 1 (without stopping) when no record is accepted and
at 0 when one is; a `newest` page leaves the streak unchanged on success
and increments it (stopping at 3) when no record is accepted. -/
theorem scrape_c2_amended :
    ∀ (inp : PageInput) (st : CrawlState),
      ((crawlStep inp st).1.empty_pages_count, (crawlStep inp st).2) =
        (match inp with
         | PageInput.fetchFailed => (st.empty_pages_count, false)
         | PageInput.newestPage extracted =>
           if (acceptRecords false st.existing_phones extracted).1.isEmpty then
             (st.empty_pages_count + 1, decide (3 ≤ st.empty_pages_count + 1))
           else (st.empty_pages_count, false)
         | PageInput.containerPage _ products =>
           if products.isEmpty then
             (st.empty_pages_count + 1, decide (3 ≤ st.empty_pages_count + 1))
           else if (acceptRecords true st.existing_phones products).1.isEmpty then (1, false)
           else (0, false)) := by
  intro inp st
  cases inp with
  | fetchFailed => simp [crawlStep]
  | newestPage extracted =>
    by_cases hb : (acceptRecords false st.existing_phones extracted).1.isEmpty
    · simp only [crawlStep, hb, Bool.not_true, Bool.false_eq_true, if_false, if_true,
        max_empty_pages]
      split_ifs with h3 <;> simp [h3]
    · simp [crawlStep, hb]
  | containerPage b products =>
    by_cases hp : products.isEmpty
    · simp only [crawlStep, hp, if_true, max_empty_pages]
      split_ifs with h3 <;> simp [h3]
    · by_cases hb : (acceptRecords true st.existing_phones products).1.isEmpty
      · simp [crawlStep, hp, hb, max_empty_pages]
      · simp [crawlStep, hp, hb]

/-- Claim C2 counterexample: on a container page with containers but zero
accepted records, starting from a streak of 2, the claimed update rule
gives streak 3 and stops the crawl, while the code resets the streak and
ends at 1 without stopping. -/
theorem scrape_c2_cex :
    ((crawlStep inpC2 stC2).1.empty_pages_count, (crawlStep inpC2 stC2).2) = (1, false)
    ∧ claimStreakStep (pageBatch inpC2 stC2).length stC2.empty_pages_count = (3, true)
    ∧ ¬ (((1, false) : Nat × Bool) = (3, true)) := by decide

/-- Claim C3: dedup idempotence — re-running the acceptance loop on the
same extraction results with the ledger produced by the first run accepts
nothing; a record whose name is already in the ledger is never in the
accepted batch; and the run total grows by exactly the accepted batch's
length, so dropped duplicates count toward neither total. -/
theorem scrape_c3 :
    (∀ (rp : Bool) (ledger : List PyStr) (prods : List (Option PhoneData)),
      (acceptRecords rp ((acceptRecords rp ledger prods).2) prods).1 = [])
    ∧ (∀ (rp : Bool) (ledger : List PyStr) (prods : List (Option PhoneData)) (pd : PhoneData),
        pd ∈ (acceptRecords rp ledger prods).1 → pd.Name ∉ ledger)
    ∧ (∀ (inp : PageInput) (st : CrawlState),
        (crawlStep inp st).1.total_phones = st.total_phones + (pageBatch inp st).length) := by
  refine ⟨?_, ?_, ?_⟩
  · intro rp ledger prods
    exact acceptRecords_idem rp prods ledger _
      (fun x hx => acceptRecords_sub rp prods ledger x hx)
      (fun pd hpd => acceptRecords_names rp prods ledger pd hpd)
  · intro rp ledger prods pd h
    exact (acceptRecords_mem rp prods ledger pd h).2.2
  · intro inp st
    exact (crawlStep_batch inp st).2

theorem scrape_c3_witness : pdAW.Name ∉ ledgerW :=
  scrape_c3.2.1 true ledgerW prodsW pdAW (by decide)
